import Mathlib

/-
  Verification of the FHIR bundle-to-graph transformation engine
  (fhir-graph-injector: fhir_graph_builder.py, fhir_neo4j_injector.py,
  oldcode/fhir_neo4j_injector_v2.py).

  Strings are modelled as Lean String; character-level operations
  (substring containment, replacement, splitting) are carried out on the
  underlying character list (String.data), mirroring Python str semantics.
-/

namespace FhirGraph

/-! ## Character-list string primitives (Python str operations) -/

/-- Does the pattern occur at the start of the list? (Python str.startswith,
    used as a building block for containment and replacement.) -/
def startsWithL : List Char → List Char → Bool
  | [], _ => true
  | _ :: _, [] => false
  | a :: as, b :: bs => a == b && startsWithL as bs

/-- Does the pattern occur anywhere in the list? (Python `pat in s`.) -/
def containsL (pat : List Char) : List Char → Bool
  | [] => startsWithL pat []
  | l@(_ :: rest) => startsWithL pat l || containsL pat rest

/-- The characters of the opaque-scheme marker "urn:uuid:". -/
def urnUuid : List Char := "urn:uuid:".data

/-- Python `s.replace("urn:uuid:", "")`: left-to-right scan removing every
    occurrence of the marker. -/
def stripUrnUuid : List Char → List Char
  | [] => []
  | c :: rest =>
      if startsWithL urnUuid (c :: rest) then stripUrnUuid ((c :: rest).drop 9)
      else c :: stripUrnUuid rest
  termination_by l => l.length
  decreasing_by
    all_goals simp_all [List.length_drop]
    all_goals omega

/-- Python `s.split("/")[-1]`: the characters after the last slash. -/
def afterLastSlash (l : List Char) : List Char :=
  (l.reverse.takeWhile (fun c => !(c == '/'))).reverse

/-- FHIRNeo4jInjectorV2.extract_reference_id: empty input stays empty; an
    input containing "urn:uuid:" has every occurrence of that marker removed;
    otherwise an input containing a slash is cut at its last slash; any other
    input is returned unchanged. -/
def extractReferenceId (r : List Char) : List Char :=
  if r = [] then []
  else if containsL urnUuid r then stripUrnUuid r
  else if r.contains '/' then afterLastSlash r
  else r

/-! ### Facts about the primitives -/

theorem startsWithL_mem {p l : List Char} (h : startsWithL p l = true) :
    ∀ a ∈ p, a ∈ l := by
  induction p generalizing l with
  | nil => intro a ha; cases ha
  | cons x xs ih =>
      cases l with
      | nil => simp [startsWithL] at h
      | cons y ys =>
          simp only [startsWithL, Bool.and_eq_true, beq_iff_eq] at h
          intro a ha
          rcases List.mem_cons.mp ha with rfl | ha
          · exact h.1 ▸ List.mem_cons_self _ _
          · exact List.mem_cons_of_mem _ (ih h.2 a ha)

theorem containsL_mem {p l : List Char} (h : containsL p l = true) :
    ∀ a ∈ p, a ∈ l := by
  induction l with
  | nil =>
      cases p with
      | nil => intro a ha; cases ha
      | cons x xs => simp [containsL, startsWithL] at h
  | cons y ys ih =>
      simp only [containsL, Bool.or_eq_true] at h
      rcases h with h | h
      · exact startsWithL_mem h
      · intro a ha; exact List.mem_cons_of_mem _ (ih h a ha)

theorem containsL_urnUuid_false {l : List Char} (h : ':' ∉ l) :
    containsL urnUuid l = false := by
  by_contra hc
  have := containsL_mem (p := urnUuid) (l := l)
    (by revert hc; cases containsL urnUuid l <;> simp)
  exact h (this ':' (by decide))

theorem startsWithL_self_append (p t : List Char) :
    startsWithL p (p ++ t) = true := by
  induction p with
  | nil => rfl
  | cons a as ih => simp [startsWithL, ih]

theorem stripUrnUuid_no_colon {l : List Char} (h : ':' ∉ l) :
    stripUrnUuid l = l := by
  induction l with
  | nil => rw [stripUrnUuid]
  | cons c rest ih =>
      rw [stripUrnUuid]
      have hpre : startsWithL urnUuid (c :: rest) = false := by
        by_contra hp
        have := startsWithL_mem (p := urnUuid) (l := c :: rest)
          (by revert hp; cases startsWithL urnUuid (c :: rest) <;> simp)
        exact h (this ':' (by decide))
      rw [hpre]
      simp only [ite_false, Bool.false_eq_true]
      rw [ih (fun hm => h (List.mem_cons_of_mem _ hm))]

theorem stripUrnUuid_append (i : List Char) :
    stripUrnUuid (urnUuid ++ i) = stripUrnUuid i := by
  have hne : urnUuid ++ i = 'u' :: ("rn:uuid:".data ++ i) := by rfl
  rw [hne, stripUrnUuid]
  have hpre : startsWithL urnUuid ('u' :: ("rn:uuid:".data ++ i)) = true := by
    have := startsWithL_self_append urnUuid i
    simpa [hne] using this
  rw [hpre]
  simp only [ite_true]
  have hdrop : ('u' :: ("rn:uuid:".data ++ i)).drop 9 = i := by
    simp [List.drop_append_of_le_length, List.drop]
  rw [hdrop]

theorem takeWhile_append_not {p : Char → Bool} {xs : List Char} {y : Char}
    (ys : List Char) (hxs : ∀ x ∈ xs, p x = true) (hy : p y = false) :
    (xs ++ y :: ys).takeWhile p = xs := by
  induction xs with
  | nil => simp [List.takeWhile, hy]
  | cons a as ih =>
      have ha : p a = true := hxs a (List.mem_cons_self _ _)
      have ih2 := ih (fun x hx => hxs x (List.mem_cons_of_mem _ hx))
      simp only [List.cons_append, List.takeWhile, ha, List.append_eq]
      rw [ih2]

theorem afterLastSlash_append {t i : List Char} (hi : '/' ∉ i) :
    afterLastSlash (t ++ '/' :: i) = i := by
  unfold afterLastSlash
  rw [List.reverse_append, List.reverse_cons, List.append_assoc,
    List.singleton_append]
  rw [takeWhile_append_not (t.reverse)
    (fun x hx => by
      have : x ∈ i := List.mem_reverse.mp hx
      have : x ≠ '/' := fun h => hi (h ▸ this)
      simp [this])
    (by simp)]
  exact List.reverse_reverse i

theorem extractReferenceId_typeQualified (t i : List Char)
    (hct : ':' ∉ t) (hci : ':' ∉ i) (hst : '/' ∉ t) (hsi : '/' ∉ i) :
    extractReferenceId (t ++ '/' :: i) = i := by
  have hne : t ++ '/' :: i ≠ [] := by
    cases t <;> simp
  have hcolon : ':' ∉ t ++ '/' :: i := by
    intro hm
    rcases List.mem_append.mp hm with hm | hm
    · exact hct hm
    · rcases List.mem_cons.mp hm with h | hm
      · exact absurd h (by decide)
      · exact hci hm
  have hslash : (t ++ '/' :: i).contains '/' = true := by
    have : '/' ∈ t ++ '/' :: i := List.mem_append.mpr (Or.inr (List.mem_cons_self _ _))
    exact List.elem_eq_true_of_mem this
  rw [extractReferenceId, if_neg hne, containsL_urnUuid_false hcolon]
  simp only [Bool.false_eq_true, ite_false, hslash, ite_true]
  exact afterLastSlash_append hsi

theorem extractReferenceId_urnAppend (i : List Char) (hci : ':' ∉ i) :
    extractReferenceId (urnUuid ++ i) = i := by
  have hne : urnUuid ++ i ≠ [] := by simp [urnUuid]
  have hcontains : containsL urnUuid (urnUuid ++ i) = true := by
    cases hu : urnUuid ++ i with
    | nil => exact absurd hu hne
    | cons c rest =>
        rw [containsL]
        have : startsWithL urnUuid (c :: rest) = true := by
          rw [← hu]; exact startsWithL_self_append urnUuid i
        simp [this]
  rw [extractReferenceId, if_neg hne, hcontains]
  simp only [ite_true]
  rw [stripUrnUuid_append, stripUrnUuid_no_colon hci]

theorem extractReferenceId_bare (r : List Char) (hcr : ':' ∉ r) (hsr : '/' ∉ r) :
    extractReferenceId r = r := by
  by_cases hne : r = []
  · subst hne; rfl
  · rw [extractReferenceId, if_neg hne, containsL_urnUuid_false hcr]
    have hslash : r.contains '/' = false := by
      cases hc : r.contains '/'
      · rfl
      · exact absurd (List.mem_of_elem_eq_true hc) hsr
    simp only [hslash, Bool.false_eq_true, ite_false]

/-- C3: Reference resolution round-trip. Resolving a type-qualified
    reference "Type/id" yields the bare id, resolving an opaque-prefixed
    reference "urn:uuid:id" yields the bare id, resolving an already-bare id
    (no slash, no colon) yields it unchanged, and resolving the empty string
    yields the empty string. The resolver is a total Lean function, so it
    never throws on any input. -/
theorem c3_extract_reference_id_round_trip :
    (∀ t i : List Char, ':' ∉ t → ':' ∉ i → '/' ∉ t → '/' ∉ i →
      extractReferenceId (t ++ '/' :: i) = i) ∧
    (∀ i : List Char, ':' ∉ i → extractReferenceId (urnUuid ++ i) = i) ∧
    (∀ r : List Char, ':' ∉ r → '/' ∉ r → extractReferenceId r = r) ∧
    extractReferenceId [] = [] :=
  ⟨extractReferenceId_typeQualified, extractReferenceId_urnAppend,
   extractReferenceId_bare, rfl⟩

/-- Witness for C3 at the spec's own examples: resolving "Condition/abc123"
    yields "abc123", resolving "urn:uuid:abc123" yields "abc123", the bare id
    "abc123" is unchanged, and the empty string resolves to itself. -/
theorem c3_extract_reference_id_round_trip_witness :
    extractReferenceId ("Condition".data ++ '/' :: "abc123".data) = "abc123".data ∧
    extractReferenceId (urnUuid ++ "abc123".data) = "abc123".data ∧
    extractReferenceId "abc123".data = "abc123".data ∧
    extractReferenceId [] = [] :=
  ⟨c3_extract_reference_id_round_trip.1 "Condition".data "abc123".data
      (by decide) (by decide) (by decide) (by decide),
   c3_extract_reference_id_round_trip.2.1 "abc123".data (by decide),
   c3_extract_reference_id_round_trip.2.2.1 "abc123".data (by decide) (by decide),
   c3_extract_reference_id_round_trip.2.2.2⟩

/-! ## Graph node records

    Node records carry the identifier, the stored reference fields and the
    onset timestamp that the relationship and temporal queries read; plain
    display attributes that no query reads are omitted.  The v2 injector
    (oldcode/fhir_neo4j_injector_v2.py) stores resolved bare ids (pid,
    encref, reasonid, encid); the builder (fhir_graph_builder.py) stores the
    raw reference strings (patient_ref, encounter_ref, reason_ref), absent
    references being null (Option.none). -/

structure EncounterV2 where
  id : String
  pid : String
  deriving DecidableEq

structure ConditionV2 where
  id : String
  pid : String
  encref : String
  onsetdate : String
  deriving DecidableEq

structure ObservationV2 where
  id : String
  encid : String
  deriving DecidableEq

structure MedicationRequestV2 where
  id : String
  pid : String
  reasonid : String
  deriving DecidableEq

structure ProcedureV2 where
  id : String
  pid : String
  deriving DecidableEq

/-- The node set the v2 relationship queries run over (patient nodes carry
    only their id here; their display attributes are never read by a
    relationship query). -/
structure GraphV2 where
  patients : List String
  encounters : List EncounterV2
  conditions : List ConditionV2
  observations : List ObservationV2
  medicationRequests : List MedicationRequestV2
  procedures : List ProcedureV2

/-- A Cypher MATCH over two node labels with a WHERE filter: every pair of
    nodes satisfying the predicate, in node-list order. -/
def joinPairs {α β : Type} (as : List α) (bs : List β) (m : α → β → Bool) :
    List (α × β) :=
  as.flatMap fun a => (bs.filter (m a)).map fun b => (a, b)

theorem mem_joinPairs {α β : Type} {as : List α} {bs : List β}
    {m : α → β → Bool} {a : α} {b : β} :
    (a, b) ∈ joinPairs as bs m ↔ a ∈ as ∧ b ∈ bs ∧ m a b = true := by
  simp only [joinPairs, List.mem_flatMap, List.mem_map, List.mem_filter]
  constructor
  · rintro ⟨x, hx, y, ⟨hy, hm⟩, heq⟩
    cases heq
    exact ⟨hx, hy, hm⟩
  · rintro ⟨ha, hb, hm⟩
    exact ⟨a, ha, b, ⟨hb, hm⟩, rfl⟩

/-! v2 structural relationship queries (create_basic_relationships):
    each matches on exact equality between a stored resolved reference and
    the other endpoint's id. -/

def v2HasEncounterPairs (g : GraphV2) : List (String × EncounterV2) :=
  joinPairs g.patients g.encounters (fun p e => e.pid == p)

def v2HasConditionPairs (g : GraphV2) : List (String × ConditionV2) :=
  joinPairs g.patients g.conditions (fun p c => c.pid == p)

def v2HasObservationPairs (g : GraphV2) : List (EncounterV2 × ObservationV2) :=
  joinPairs g.encounters g.observations (fun e o => o.encid == e.id)

def v2EncounterConditionPairs (g : GraphV2) : List (EncounterV2 × ConditionV2) :=
  joinPairs g.encounters g.conditions (fun e c => c.encref == e.id)

def v2TreatmentForPairs (g : GraphV2) : List (MedicationRequestV2 × ConditionV2) :=
  joinPairs g.medicationRequests g.conditions (fun m c => m.reasonid == c.id)

def v2HasMedicationPairs (g : GraphV2) : List (String × MedicationRequestV2) :=
  joinPairs g.patients g.medicationRequests (fun p m => m.pid == p)

def v2HasProcedurePairs (g : GraphV2) : List (String × ProcedureV2) :=
  joinPairs g.patients g.procedures (fun p pr => pr.pid == p)

/-! Builder node records and relationship queries (create_relationships):
    the stored reference is the raw reference string and the WHERE clause
    tests substring containment (CONTAINS), not equality. -/

structure PatientB where
  id : String
  fname : Option String
  lname : Option String
  gender : Option String
  birthDate : Option String
  city : Option String
  state : Option String
  postalCode : Option String
  country : Option String
  addressLine : Option String
  maritalStatus : Option String
  race : Option String
  ethnicity : Option String
  deriving DecidableEq

/-- A builder patient node with the given id and no display attributes. -/
def mkPatientB (i : String) : PatientB :=
  ⟨i, none, none, none, none, none, none, none, none, none, none, none, none⟩

structure EncounterB where
  id : String
  patient_ref : Option String
  deriving DecidableEq

structure ConditionB where
  id : String
  patient_ref : Option String
  encounter_ref : Option String
  onsetDateTime : Option String
  deriving DecidableEq

structure ObservationB where
  id : String
  encounter_ref : Option String
  deriving DecidableEq

structure MedicationRequestB where
  id : String
  patient_ref : Option String
  reason_ref : Option String
  deriving DecidableEq

structure ProcedureB where
  id : String
  patient_ref : Option String
  encounter_ref : Option String
  reason_ref : Option String
  deriving DecidableEq

structure GraphB where
  patients : List PatientB
  encounters : List EncounterB
  conditions : List ConditionB
  observations : List ObservationB
  medicationRequests : List MedicationRequestB
  procedures : List ProcedureB

/-- Cypher `ref CONTAINS id` on a possibly-null stored reference: null
    never matches; otherwise substring containment. -/
def refContains (r : Option String) (i : String) : Bool :=
  match r with
  | none => false
  | some s => containsL i.data s.data

def bHasEncounterPairs (g : GraphB) : List (PatientB × EncounterB) :=
  joinPairs g.patients g.encounters (fun p e => refContains e.patient_ref p.id)

def bHasObservationPairs (g : GraphB) : List (EncounterB × ObservationB) :=
  joinPairs g.encounters g.observations (fun e o => refContains o.encounter_ref e.id)

def bRevealedConditionPairs (g : GraphB) : List (EncounterB × ConditionB) :=
  joinPairs g.encounters g.conditions (fun e c => refContains c.encounter_ref e.id)

def bHasConditionPairs (g : GraphB) : List (PatientB × ConditionB) :=
  joinPairs g.patients g.conditions (fun p c => refContains c.patient_ref p.id)

def bTreatmentForPairs (g : GraphB) : List (MedicationRequestB × ConditionB) :=
  joinPairs g.medicationRequests g.conditions (fun m c => refContains m.reason_ref c.id)

def bHasMedicationPairs (g : GraphB) : List (PatientB × MedicationRequestB) :=
  joinPairs g.patients g.medicationRequests (fun p m => refContains m.patient_ref p.id)

def bProcedureForTreatmentPairs (g : GraphB) : List (ProcedureB × ConditionB) :=
  joinPairs g.procedures g.conditions (fun pr c => refContains pr.reason_ref c.id)

def bEncounterProcedurePairs (g : GraphB) : List (EncounterB × ProcedureB) :=
  joinPairs g.encounters g.procedures (fun e pr => refContains pr.encounter_ref e.id)

def bPatientProcedurePairs (g : GraphB) : List (PatientB × ProcedureB) :=
  joinPairs g.patients g.procedures (fun p pr => refContains pr.patient_ref p.id)

/-- C2 counterexample: the builder graph with two patient nodes "P1" and
    "1" and one condition whose stored patient reference is "urn:uuid:P1". -/
def c2Graph : GraphB :=
  { patients := [mkPatientB "P1", mkPatientB "1"]
    encounters := []
    conditions := [⟨"C1", some "urn:uuid:P1", none, none⟩]
    observations := []
    medicationRequests := []
    procedures := [] }

/-- C2 counterexample: the builder's Relationship Synthesizer matches by
    substring containment, not exact equality.  The condition's stored
    reference "urn:uuid:P1" resolves to the bare id "P1", yet the patient
    node whose id is "1" — a mere substring — also receives a
    patient→condition edge: a spurious edge between nodes whose resolved
    reference and identifier are not equal. -/
theorem c2_substring_match_cex :
    (mkPatientB "1", (⟨"C1", some "urn:uuid:P1", none, none⟩ : ConditionB)) ∈
      bHasConditionPairs c2Graph ∧
    extractReferenceId ("urn:uuid:P1".data) = "P1".data ∧
    ("P1" : String) ≠ "1" := by
  refine ⟨by decide, ?_, by decide⟩
  have h : "urn:uuid:P1".data = urnUuid ++ "P1".data := by decide
  rw [h]
  exact extractReferenceId_urnAppend "P1".data (by decide)

/-- C2 (amended): in the v2 injector, every declared structural
    relationship creates an edge between a source and a target node exactly
    when the stored resolved reference field equals the matched node's
    identifier — exact string equality, for each of the seven declared
    relationship queries. -/
theorem c2_exact_equality_v2 (g : GraphV2) :
    (∀ p e, (p, e) ∈ v2HasEncounterPairs g ↔
      p ∈ g.patients ∧ e ∈ g.encounters ∧ e.pid = p) ∧
    (∀ p c, (p, c) ∈ v2HasConditionPairs g ↔
      p ∈ g.patients ∧ c ∈ g.conditions ∧ c.pid = p) ∧
    (∀ e o, (e, o) ∈ v2HasObservationPairs g ↔
      e ∈ g.encounters ∧ o ∈ g.observations ∧ o.encid = e.id) ∧
    (∀ e c, (e, c) ∈ v2EncounterConditionPairs g ↔
      e ∈ g.encounters ∧ c ∈ g.conditions ∧ c.encref = e.id) ∧
    (∀ m c, (m, c) ∈ v2TreatmentForPairs g ↔
      m ∈ g.medicationRequests ∧ c ∈ g.conditions ∧ m.reasonid = c.id) ∧
    (∀ p m, (p, m) ∈ v2HasMedicationPairs g ↔
      p ∈ g.patients ∧ m ∈ g.medicationRequests ∧ m.pid = p) ∧
    (∀ p pr, (p, pr) ∈ v2HasProcedurePairs g ↔
      p ∈ g.patients ∧ pr ∈ g.procedures ∧ pr.pid = p) := by
  refine ⟨?_, ?_, ?_, ?_, ?_, ?_, ?_⟩ <;>
    intro x y <;>
    simp [v2HasEncounterPairs, v2HasConditionPairs, v2HasObservationPairs,
      v2EncounterConditionPairs, v2TreatmentForPairs, v2HasMedicationPairs,
      v2HasProcedurePairs, mem_joinPairs]

/-- C6: dangling reference safety.  A condition whose stored patient
    reference matches no loaded patient produces zero patient→condition
    edges for that condition — in the v2 injector (exact match on the
    resolved reference) and in the builder (containment match on the raw
    reference) alike.  Both synthesizers are total functions: no error is
    raised, synthesis completes normally. -/
theorem c6_dangling_reference_safety :
    (∀ (g : GraphV2) (c : ConditionV2), (∀ p ∈ g.patients, c.pid ≠ p) →
      ∀ p, (p, c) ∉ v2HasConditionPairs g) ∧
    (∀ (g : GraphB) (c : ConditionB), (∀ p ∈ g.patients, refContains c.patient_ref p.id = false) →
      ∀ p, (p, c) ∉ bHasConditionPairs g) := by
  constructor
  · intro g c hno p hmem
    rw [v2HasConditionPairs, mem_joinPairs] at hmem
    exact hno p hmem.1 (by simpa using hmem.2.2)
  · intro g c hno p hmem
    rw [bHasConditionPairs, mem_joinPairs] at hmem
    rw [hno p hmem.1] at hmem
    exact Bool.false_ne_true hmem.2.2

/-- Witness for C6: a concrete graph with one patient "P2" and a condition
    referencing the absent patient "P1" (v2: resolved pid "P1"; builder: raw
    reference "urn:uuid:P1", which does not contain "P2") — the condition
    receives no patient→condition edge in either synthesizer. -/
theorem c6_dangling_reference_safety_witness :
    (∀ p, (p, (⟨"C1", "P1", "", ""⟩ : ConditionV2)) ∉ v2HasConditionPairs
      { patients := ["P2"], encounters := [], conditions := [⟨"C1", "P1", "", ""⟩],
        observations := [], medicationRequests := [], procedures := [] }) ∧
    (∀ p, (p, (⟨"C1", some "urn:uuid:P1", none, none⟩ : ConditionB)) ∉ bHasConditionPairs
      { patients := [mkPatientB "P2"], encounters := [],
        conditions := [⟨"C1", some "urn:uuid:P1", none, none⟩],
        observations := [], medicationRequests := [], procedures := [] }) :=
  ⟨c6_dangling_reference_safety.1 _ _ (by decide),
   c6_dangling_reference_safety.2 _ _ (by decide)⟩

/-! ## Temporal chain synthesis

    Both temporal builders sort a patient's HASCONDITION-linked condition
    nodes by onset timestamp (Cypher ORDER BY, modelled by a stable
    insertion sort), then emit one FIRSTCONDITION edge to the head of the
    ascending order, one LATESTCONDITION edge to the head of the descending
    order, and one NEXTCONDITION edge per adjacent pair of the ascending
    order.  The v2 injector filters to conditions whose onsetdate is
    non-empty; the builder applies no such filter. -/

def insertBy {α : Type} (le : α → α → Bool) (a : α) : List α → List α
  | [] => [a]
  | b :: bs => if le a b then a :: b :: bs else b :: insertBy le a bs

def insSort {α : Type} (le : α → α → Bool) : List α → List α
  | [] => []
  | a :: as => insertBy le a (insSort le as)

theorem length_insertBy {α : Type} (le : α → α → Bool) (a : α) (l : List α) :
    (insertBy le a l).length = l.length + 1 := by
  induction l with
  | nil => rfl
  | cons b bs ih =>
      rw [insertBy]
      by_cases h : le a b = true
      · simp [h]
      · simp [h, ih]

theorem length_insSort {α : Type} (le : α → α → Bool) (l : List α) :
    (insSort le l).length = l.length := by
  induction l with
  | nil => rfl
  | cons a as ih => rw [insSort, length_insertBy, ih, List.length_cons]

theorem mem_insertBy {α : Type} {le : α → α → Bool} {a x : α} {l : List α} :
    x ∈ insertBy le a l ↔ x = a ∨ x ∈ l := by
  induction l with
  | nil => simp [insertBy]
  | cons b bs ih =>
      rw [insertBy]
      by_cases h : le a b = true
      · simp [h]
      · simp only [h, Bool.false_eq_true, ite_false, List.mem_cons, ih]
        tauto

theorem mem_insSort {α : Type} {le : α → α → Bool} {x : α} {l : List α} :
    x ∈ insSort le l ↔ x ∈ l := by
  induction l with
  | nil => simp [insSort]
  | cons a as ih => rw [insSort, mem_insertBy, ih, List.mem_cons]

/-- Lexicographic comparison of character lists (Cypher string ordering). -/
def lexLe : List Char → List Char → Bool
  | [], _ => true
  | _ :: _, [] => false
  | a :: as, b :: bs => if a < b then true else if a == b then lexLe as bs else false

/-! v2 temporal queries (create_temporal_relationships): MATCH
    (p:Patient)-[:HASCONDITION]->(c:Condition) composes the structural
    edges (c.pid = p.id) with the onset filter
    `c.onsetdate IS NOT NULL AND c.onsetdate <> ""` (onsetdate is always a
    string in v2, extracted with default "", so only the non-empty test
    bites). -/

def v2DatedConditions (conds : List ConditionV2) (p : String) : List ConditionV2 :=
  (conds.filter (fun c => c.pid == p)).filter (fun c => !(c.onsetdate == ""))

def leOnsetAsc (a b : ConditionV2) : Bool := lexLe a.onsetdate.data b.onsetdate.data

def leOnsetDesc (a b : ConditionV2) : Bool := lexLe b.onsetdate.data a.onsetdate.data

def v2FirstConditionEdges (conds : List ConditionV2) (p : String) :
    List (String × String) :=
  match insSort leOnsetAsc (v2DatedConditions conds p) with
  | [] => []
  | c :: _ => [(p, c.id)]

def v2LatestConditionEdges (conds : List ConditionV2) (p : String) :
    List (String × String) :=
  match insSort leOnsetDesc (v2DatedConditions conds p) with
  | [] => []
  | c :: _ => [(p, c.id)]

def v2NextConditionEdges (conds : List ConditionV2) (p : String) :
    List (String × String) :=
  let s := insSort leOnsetAsc (v2DatedConditions conds p)
  (s.zip s.tail).map (fun q => (q.1.id, q.2.id))

theorem mem_v2DatedConditions {conds : List ConditionV2} {p : String}
    {c : ConditionV2} (h : c ∈ v2DatedConditions conds p) :
    c ∈ conds ∧ c.pid = p ∧ c.onsetdate ≠ "" := by
  rw [v2DatedConditions] at h
  have h2 := List.mem_filter.mp h
  have h1 := List.mem_filter.mp h2.1
  refine ⟨h1.1, by simpa using h1.2, ?_⟩
  intro he
  rw [he] at h2
  simp at h2

/-- C1 (amended): temporal chain totality for the v2 temporal builder.
    Counting a patient's conditions with non-empty onset (N of them): when
    N = 0 there are no first/latest/next edges for that patient; when N ≥ 1
    there is exactly 1 first-in-time edge, exactly 1 latest-in-time edge and
    exactly N−1 next-in-time edges; and every temporal edge's condition
    endpoint is one of the patient's conditions with non-empty onset, so a
    condition with empty onset never appears in any temporal edge. -/
theorem c1_temporal_chain_totality_v2 (conds : List ConditionV2) (p : String) :
    ((v2DatedConditions conds p).length = 0 →
      v2FirstConditionEdges conds p = [] ∧
      v2LatestConditionEdges conds p = [] ∧
      v2NextConditionEdges conds p = []) ∧
    (1 ≤ (v2DatedConditions conds p).length →
      (v2FirstConditionEdges conds p).length = 1 ∧
      (v2LatestConditionEdges conds p).length = 1 ∧
      (v2NextConditionEdges conds p).length = (v2DatedConditions conds p).length - 1) ∧
    (∀ e ∈ v2FirstConditionEdges conds p,
      ∃ c ∈ conds, c.pid = p ∧ c.onsetdate ≠ "" ∧ e = (p, c.id)) ∧
    (∀ e ∈ v2LatestConditionEdges conds p,
      ∃ c ∈ conds, c.pid = p ∧ c.onsetdate ≠ "" ∧ e = (p, c.id)) ∧
    (∀ e ∈ v2NextConditionEdges conds p,
      (∃ c ∈ conds, c.pid = p ∧ c.onsetdate ≠ "" ∧ e.1 = c.id) ∧
      (∃ c ∈ conds, c.pid = p ∧ c.onsetdate ≠ "" ∧ e.2 = c.id)) := by
  refine ⟨?_, ?_, ?_, ?_, ?_⟩
  · intro h0
    have hd : v2DatedConditions conds p = [] := List.length_eq_zero.mp h0
    refine ⟨?_, ?_, ?_⟩ <;>
      simp [v2FirstConditionEdges, v2LatestConditionEdges, v2NextConditionEdges,
        hd, insSort]
  · intro h1
    have hlenA : (insSort leOnsetAsc (v2DatedConditions conds p)).length =
        (v2DatedConditions conds p).length := length_insSort _ _
    have hlenD : (insSort leOnsetDesc (v2DatedConditions conds p)).length =
        (v2DatedConditions conds p).length := length_insSort _ _
    refine ⟨?_, ?_, ?_⟩
    · cases hs : insSort leOnsetAsc (v2DatedConditions conds p) with
      | nil => rw [hs] at hlenA; simp only [List.length_nil] at hlenA; omega
      | cons c rest => simp [v2FirstConditionEdges, hs]
    · cases hs : insSort leOnsetDesc (v2DatedConditions conds p) with
      | nil => rw [hs] at hlenD; simp only [List.length_nil] at hlenD; omega
      | cons c rest => simp [v2LatestConditionEdges, hs]
    · rw [v2NextConditionEdges]
      simp only [List.length_map, List.length_zip, List.length_tail, hlenA]
      omega
  · intro e he
    rw [v2FirstConditionEdges] at he
    cases hs : insSort leOnsetAsc (v2DatedConditions conds p) with
    | nil => rw [hs] at he; cases he
    | cons c rest =>
        rw [hs] at he
        have hc : c ∈ v2DatedConditions conds p :=
          mem_insSort.mp (hs ▸ List.mem_cons_self _ _)
        obtain ⟨h1, h2, h3⟩ := mem_v2DatedConditions hc
        rcases List.mem_singleton.mp he with rfl
        exact ⟨c, h1, h2, h3, rfl⟩
  · intro e he
    rw [v2LatestConditionEdges] at he
    cases hs : insSort leOnsetDesc (v2DatedConditions conds p) with
    | nil => rw [hs] at he; cases he
    | cons c rest =>
        rw [hs] at he
        have hc : c ∈ v2DatedConditions conds p :=
          mem_insSort.mp (hs ▸ List.mem_cons_self _ _)
        obtain ⟨h1, h2, h3⟩ := mem_v2DatedConditions hc
        rcases List.mem_singleton.mp he with rfl
        exact ⟨c, h1, h2, h3, rfl⟩
  · intro e he
    rw [v2NextConditionEdges] at he
    obtain ⟨q, hq, rfl⟩ := List.mem_map.mp he
    have hz := List.of_mem_zip hq
    have ha : q.1 ∈ insSort leOnsetAsc (v2DatedConditions conds p) := hz.1
    have hb : q.2 ∈ insSort leOnsetAsc (v2DatedConditions conds p) :=
      List.mem_of_mem_tail hz.2
    obtain ⟨ha1, ha2, ha3⟩ := mem_v2DatedConditions (mem_insSort.mp ha)
    obtain ⟨hb1, hb2, hb3⟩ := mem_v2DatedConditions (mem_insSort.mp hb)
    exact ⟨⟨q.1, ha1, ha2, ha3, rfl⟩, ⟨q.2, hb1, hb2, hb3, rfl⟩⟩

/-- Conditions the spec's scenario feeds the temporal builder: patient "P1"
    with onsets 2020-01-01 and 2019-06-15. -/
def c1Conds : List ConditionV2 :=
  [⟨"C1", "P1", "", "2020-01-01"⟩, ⟨"C2", "P1", "", "2019-06-15"⟩]

/-- Witness for C1 at concrete inputs: with two dated conditions exactly one
    first, one latest, and one next edge are produced; with no conditions at
    all, none are. -/
theorem c1_temporal_chain_totality_v2_witness :
    (1 ≤ (v2DatedConditions c1Conds "P1").length ∧
      (v2FirstConditionEdges c1Conds "P1").length = 1 ∧
      (v2LatestConditionEdges c1Conds "P1").length = 1 ∧
      (v2NextConditionEdges c1Conds "P1").length =
        (v2DatedConditions c1Conds "P1").length - 1) ∧
    ((v2DatedConditions [] "P0").length = 0 ∧
      v2FirstConditionEdges [] "P0" = []) :=
  ⟨⟨by decide,
    ((c1_temporal_chain_totality_v2 c1Conds "P1").2.1 (by decide)).1,
    ((c1_temporal_chain_totality_v2 c1Conds "P1").2.1 (by decide)).2.1,
    ((c1_temporal_chain_totality_v2 c1Conds "P1").2.1 (by decide)).2.2⟩,
   ⟨by decide,
    ((c1_temporal_chain_totality_v2 [] "P0").1 (by decide)).1⟩⟩

/-! Builder temporal queries (create_temporal_relationships in
    fhir_graph_builder.py): same grouping and ordering, but with no filter
    on the onset timestamp — every HASCONDITION-linked condition takes part.
    Cypher ascending ORDER BY sorts null onsets last. -/

def leOnsetB (a b : ConditionB) : Bool :=
  match a.onsetDateTime, b.onsetDateTime with
  | none, none => true
  | none, some _ => false
  | some _, none => true
  | some x, some y => lexLe x.data y.data

def bPatientConditions (g : GraphB) (p : PatientB) : List ConditionB :=
  g.conditions.filter (fun c => refContains c.patient_ref p.id)

def bFirstConditionEdges (g : GraphB) (p : PatientB) :
    List (String × String × Option String) :=
  match insSort leOnsetB (bPatientConditions g p) with
  | [] => []
  | c :: _ => [(p.id, c.id, c.onsetDateTime)]

/-- C1 counterexample graph: one patient "P1" and one linked condition whose
    onset timestamp is present but empty. -/
def c1GraphB : GraphB :=
  { patients := [mkPatientB "P1"]
    encounters := []
    conditions := [⟨"C1", some "P1", none, some ""⟩]
    observations := []
    medicationRequests := []
    procedures := [] }

/-- C1 counterexample: the builder's temporal synthesis applies no onset
    filter.  Patient "P1" has zero conditions with a non-empty onset
    (N = 0), yet the builder still creates a first-in-time edge — and that
    edge's target is a condition whose onset is empty, which the claim says
    never appears in any temporal edge. -/
theorem c1_undated_condition_in_chain_cex :
    ((bPatientConditions c1GraphB (mkPatientB "P1")).filter
        (fun c => !(c.onsetDateTime.getD "" == ""))) = [] ∧
    bFirstConditionEdges c1GraphB (mkPatientB "P1") = [("P1", "C1", some "")] :=
  ⟨by decide, by decide⟩

/-! ## Node upsert (Bundle Processing)

    The builder's create_patient_nodes issues `MERGE (p:Patient {id: $id})
    SET ...` per Patient entry: if nodes with that id exist their attributes
    are overwritten, otherwise a node is created.  The v2 injector's
    create_patient_nodes issues an unconditional `CREATE`.  A bundle is
    modelled as the list of extracted patient data records of its Patient
    entries, in entry order. -/

def patientIds (store : List PatientB) : List String := store.map (fun q => q.id)

def mergePatientNode (store : List PatientB) (p : PatientB) : List PatientB :=
  if store.any (fun q => q.id == p.id)
  then store.map (fun q => if q.id == p.id then p else q)
  else store ++ [p]

def createPatientNodesB (store : List PatientB) (bundle : List PatientB) :
    List PatientB :=
  bundle.foldl mergePatientNode store

theorem any_id_iff {store : List PatientB} {i : String} :
    store.any (fun q => q.id == i) = true ↔ i ∈ patientIds store := by
  rw [patientIds]
  constructor
  · intro h
    obtain ⟨q, hq, he⟩ := List.any_eq_true.mp h
    exact List.mem_map.mpr ⟨q, hq, beq_iff_eq.mp he⟩
  · intro h
    obtain ⟨q, hq, he⟩ := List.mem_map.mp h
    exact List.any_eq_true.mpr ⟨q, hq, beq_iff_eq.mpr he⟩

theorem patientIds_merge_of_mem {store : List PatientB} {p : PatientB}
    (h : p.id ∈ patientIds store) :
    patientIds (mergePatientNode store p) = patientIds store := by
  rw [mergePatientNode, if_pos (any_id_iff.mpr h)]
  rw [patientIds, patientIds, List.map_map]
  refine List.map_congr_left (fun q _ => ?_)
  by_cases hq : q.id = p.id
  · simp [hq]
  · simp [hq]

theorem patientIds_merge_of_not_mem {store : List PatientB} {p : PatientB}
    (h : p.id ∉ patientIds store) :
    patientIds (mergePatientNode store p) = patientIds store ++ [p.id] := by
  rw [mergePatientNode, if_neg (fun ha => h (any_id_iff.mp ha))]
  simp [patientIds]

theorem length_merge {store : List PatientB} {p : PatientB} :
    (mergePatientNode store p).length =
      if p.id ∈ patientIds store then store.length else store.length + 1 := by
  by_cases h : p.id ∈ patientIds store
  · rw [if_pos h, mergePatientNode, if_pos (any_id_iff.mpr h), List.length_map]
  · rw [if_neg h, mergePatientNode, if_neg (fun ha => h (any_id_iff.mp ha))]
    simp

theorem mem_patientIds_merge {store : List PatientB} {p : PatientB} {i : String} :
    i ∈ patientIds (mergePatientNode store p) ↔ i ∈ patientIds store ∨ i = p.id := by
  by_cases h : p.id ∈ patientIds store
  · rw [patientIds_merge_of_mem h]
    constructor
    · exact Or.inl
    · rintro (hi | rfl)
      · exact hi
      · exact h
  · rw [patientIds_merge_of_not_mem h]
    simp

theorem mem_patientIds_foldl {bundle : List PatientB} {store : List PatientB}
    {i : String} :
    i ∈ patientIds (bundle.foldl mergePatientNode store) ↔
      i ∈ patientIds store ∨ i ∈ patientIds bundle := by
  induction bundle generalizing store with
  | nil => simp [patientIds]
  | cons p rest ih =>
      rw [List.foldl_cons, ih, mem_patientIds_merge]
      simp [patientIds, or_assoc]

theorem length_foldl_of_all_mem {bundle : List PatientB} {store : List PatientB}
    (h : ∀ p ∈ bundle, p.id ∈ patientIds store) :
    (bundle.foldl mergePatientNode store).length = store.length := by
  induction bundle generalizing store with
  | nil => rfl
  | cons p rest ih =>
      rw [List.foldl_cons]
      have hp : p.id ∈ patientIds store := h p (List.mem_cons_self _ _)
      have hlen : (mergePatientNode store p).length = store.length := by
        rw [length_merge, if_pos hp]
      rw [ih (fun q hq => ?_), hlen]
      rw [mem_patientIds_merge]
      exact Or.inl (h q (List.mem_cons_of_mem _ hq))

theorem nodup_patientIds_merge {store : List PatientB} {p : PatientB}
    (h : (patientIds store).Nodup) :
    (patientIds (mergePatientNode store p)).Nodup := by
  by_cases hm : p.id ∈ patientIds store
  · rw [patientIds_merge_of_mem hm]; exact h
  · rw [patientIds_merge_of_not_mem hm]
    simp [List.nodup_append, h, hm]

theorem nodup_patientIds_foldl {bundle : List PatientB} {store : List PatientB}
    (h : (patientIds store).Nodup) :
    (patientIds (bundle.foldl mergePatientNode store)).Nodup := by
  induction bundle generalizing store with
  | nil => exact h
  | cons p rest ih => exact List.foldl_cons .. ▸ ih (nodup_patientIds_merge h)

/-- C4 (amended): idempotent upsert in the builder.  Starting from a store
    with no duplicate identifiers, processing the same bundle's Patient
    entries twice yields exactly the same node count as processing them
    once, and the processed store never holds two nodes with the same
    identifier (re-processing an already-present identifier overwrites that
    node's attributes in place). -/
theorem c4_idempotent_upsert_builder (store bundle : List PatientB)
    (h : (patientIds store).Nodup) :
    (createPatientNodesB (createPatientNodesB store bundle) bundle).length =
      (createPatientNodesB store bundle).length ∧
    (patientIds (createPatientNodesB store bundle)).Nodup := by
  constructor
  · rw [createPatientNodesB, createPatientNodesB]
    refine length_foldl_of_all_mem (fun p hp => ?_)
    rw [mem_patientIds_foldl]
    exact Or.inr (List.mem_map.mpr ⟨p, hp, rfl⟩)
  · exact nodup_patientIds_foldl h

/-- Witness for C4 at a concrete input: one bundle with one patient. -/
theorem c4_idempotent_upsert_builder_witness :
    ((patientIds []).Nodup) ∧
    (createPatientNodesB (createPatientNodesB [] [mkPatientB "P1"]) [mkPatientB "P1"]).length =
      (createPatientNodesB [] [mkPatientB "P1"]).length ∧
    (patientIds (createPatientNodesB [] [mkPatientB "P1"])).Nodup :=
  ⟨by decide,
   (c4_idempotent_upsert_builder [] [mkPatientB "P1"] (by decide)).1,
   (c4_idempotent_upsert_builder [] [mkPatientB "P1"] (by decide)).2⟩

/-- A v2 patient node: the attribute set stored by the v2 injector's
    CREATE query. -/
structure PatientNodeV2 where
  id : String
  fname : String
  lname : String
  sex : String
  birthDate : String
  city : String
  state : String
  zip : String
  race : String
  ethnicity : String
  deriving DecidableEq

/-- v2 create_patient_nodes: an unconditional `CREATE (p:Patient {...})`
    per Patient entry — appends a node whether or not the identifier is
    already present. -/
def createPatientNodesV2 (store : List PatientNodeV2)
    (bundle : List PatientNodeV2) : List PatientNodeV2 :=
  bundle.foldl (fun s p => s ++ [p]) store

/-- C4 counterexample: the v2 injector's patient creation uses CREATE, not
    MERGE.  Processing the same one-patient bundle twice yields two nodes
    where processing it once yields one, and the resulting store holds two
    nodes with the same identifier — the claim's idempotent upsert fails on
    the cited v2 source. -/
theorem c4_duplicate_create_cex :
    (createPatientNodesV2 (createPatientNodesV2 []
        [⟨"P1", "", "", "", "", "", "", "", "", ""⟩])
        [⟨"P1", "", "", "", "", "", "", "", "", ""⟩]).length = 2 ∧
    (createPatientNodesV2 [] [⟨"P1", "", "", "", "", "", "", "", "", ""⟩]).length = 1 ∧
    ¬((createPatientNodesV2 (createPatientNodesV2 []
        [⟨"P1", "", "", "", "", "", "", "", "", ""⟩])
        [⟨"P1", "", "", "", "", "", "", "", "", ""⟩]).map (fun q => q.id)).Nodup := by
  refine ⟨by decide, by decide, by decide⟩

/-! ## Relationship synthesis as edge-store transformation

    The builder's create_relationships runs nine MERGE queries in order;
    MERGE creates an edge only if the matched pattern (endpoints, label and
    annotation) is absent.  The v2 injector's create_basic_relationships
    runs seven CREATE queries, which append unconditionally. -/

inductive RelTypeB where
  | hasEncounter
  | hasObservation
  | revealedCondition
  | hasCondition
  | treatmentFor
  | hasMedication
  | procedureForTreatment
  | hasProcedure
  deriving DecidableEq

/-- A builder edge: endpoints, label, and the date annotation that only the
    HASCONDITION query carries. -/
structure EdgeB where
  src : String
  tgt : String
  rel : RelTypeB
  date : Option String
  deriving DecidableEq

/-- The candidate edges of the builder's nine relationship queries, in
    source order (HASPROCEDURE is the label of both the encounter→procedure
    and the patient→procedure query). -/
def bCandidateEdges (g : GraphB) : List EdgeB :=
  ((bHasEncounterPairs g).map (fun q => ⟨q.1.id, q.2.id, .hasEncounter, none⟩)) ++
  ((bHasObservationPairs g).map (fun q => ⟨q.1.id, q.2.id, .hasObservation, none⟩)) ++
  ((bRevealedConditionPairs g).map (fun q => ⟨q.1.id, q.2.id, .revealedCondition, none⟩)) ++
  ((bHasConditionPairs g).map (fun q => ⟨q.1.id, q.2.id, .hasCondition, q.2.onsetDateTime⟩)) ++
  ((bTreatmentForPairs g).map (fun q => ⟨q.1.id, q.2.id, .treatmentFor, none⟩)) ++
  ((bHasMedicationPairs g).map (fun q => ⟨q.1.id, q.2.id, .hasMedication, none⟩)) ++
  ((bProcedureForTreatmentPairs g).map (fun q => ⟨q.1.id, q.2.id, .procedureForTreatment, none⟩)) ++
  ((bEncounterProcedurePairs g).map (fun q => ⟨q.1.id, q.2.id, .hasProcedure, none⟩)) ++
  ((bPatientProcedurePairs g).map (fun q => ⟨q.1.id, q.2.id, .hasProcedure, none⟩))

/-- Cypher MERGE on a relationship pattern: create only if absent. -/
def mergeEdge (es : List EdgeB) (e : EdgeB) : List EdgeB :=
  if e ∈ es then es else es ++ [e]

def createRelationshipsB (g : GraphB) (es : List EdgeB) : List EdgeB :=
  (bCandidateEdges g).foldl mergeEdge es

theorem mem_foldl_mergeEdge_of_mem {cs es : List EdgeB} {e : EdgeB}
    (h : e ∈ es) : e ∈ cs.foldl mergeEdge es := by
  induction cs generalizing es with
  | nil => exact h
  | cons c rest ih =>
      rw [List.foldl_cons]
      refine ih ?_
      rw [mergeEdge]
      by_cases hc : c ∈ es
      · rw [if_pos hc]; exact h
      · rw [if_neg hc]; exact List.mem_append_left _ h

theorem mem_foldl_mergeEdge_of_cand {cs es : List EdgeB} {e : EdgeB}
    (h : e ∈ cs) : e ∈ cs.foldl mergeEdge es := by
  induction cs generalizing es with
  | nil => cases h
  | cons c rest ih =>
      rw [List.foldl_cons]
      rcases List.mem_cons.mp h with rfl | h
      · refine mem_foldl_mergeEdge_of_mem ?_
        rw [mergeEdge]
        by_cases hc : e ∈ es
        · rw [if_pos hc]; exact hc
        · rw [if_neg hc]; exact List.mem_append_right _ (List.mem_singleton_self _)
      · exact ih h

theorem foldl_mergeEdge_of_all_mem {cs es : List EdgeB}
    (h : ∀ c ∈ cs, c ∈ es) : cs.foldl mergeEdge es = es := by
  induction cs with
  | nil => rfl
  | cons c rest ih =>
      rw [List.foldl_cons, mergeEdge, if_pos (h c (List.mem_cons_self _ _))]
      exact ih (fun x hx => h x (List.mem_cons_of_mem _ hx))

/-- C5 (amended): idempotent edge synthesis in the builder.  Over an
    unchanged node set, running create_relationships a second time leaves
    the edge store exactly as it was — in particular the edge count is the
    same, and no duplicate edge is created for an already-connected
    (source, target, edge-type) pattern. -/
theorem c5_idempotent_edges_builder (g : GraphB) (es : List EdgeB) :
    createRelationshipsB g (createRelationshipsB g es) = createRelationshipsB g es ∧
    (createRelationshipsB g (createRelationshipsB g es)).length =
      (createRelationshipsB g es).length := by
  have h : createRelationshipsB g (createRelationshipsB g es) =
      createRelationshipsB g es := by
    rw [createRelationshipsB]
    exact foldl_mergeEdge_of_all_mem (fun c hc => mem_foldl_mergeEdge_of_cand hc)
  exact ⟨h, by rw [h]⟩

inductive RelTypeV2 where
  | hasEncounter
  | hasCondition
  | hasObservation
  | treatmentFor
  | hasMedication
  | hasProcedure
  deriving DecidableEq

structure EdgeV2 where
  src : String
  tgt : String
  rel : RelTypeV2
  deriving DecidableEq

/-- The candidate edges of the v2 injector's seven relationship queries, in
    source order (HASCONDITION is the label of both the patient→condition
    and the encounter→condition query). -/
def v2CandidateEdges (g : GraphV2) : List EdgeV2 :=
  ((v2HasEncounterPairs g).map (fun q => ⟨q.1, q.2.id, .hasEncounter⟩)) ++
  ((v2HasConditionPairs g).map (fun q => ⟨q.1, q.2.id, .hasCondition⟩)) ++
  ((v2HasObservationPairs g).map (fun q => ⟨q.1.id, q.2.id, .hasObservation⟩)) ++
  ((v2EncounterConditionPairs g).map (fun q => ⟨q.1.id, q.2.id, .hasCondition⟩)) ++
  ((v2TreatmentForPairs g).map (fun q => ⟨q.1.id, q.2.id, .treatmentFor⟩)) ++
  ((v2HasMedicationPairs g).map (fun q => ⟨q.1, q.2.id, .hasMedication⟩)) ++
  ((v2HasProcedurePairs g).map (fun q => ⟨q.1, q.2.id, .hasProcedure⟩))

/-- v2 create_basic_relationships: CREATE appends every candidate edge
    unconditionally. -/
def createBasicRelationshipsV2 (g : GraphV2) (es : List EdgeV2) : List EdgeV2 :=
  es ++ v2CandidateEdges g

/-- The C5 counterexample node set: one patient and one condition
    referencing it. -/
def c5Graph : GraphV2 :=
  { patients := ["P1"]
    encounters := []
    conditions := [⟨"C1", "P1", "", ""⟩]
    observations := []
    medicationRequests := []
    procedures := [] }

/-- C5 counterexample: the v2 synthesizer uses CREATE, so running it a
    second time over the same unchanged node set duplicates the
    patient→condition edge — two edges instead of one for the same
    already-connected (source, target, edge-type) pair. -/
theorem c5_duplicate_edges_cex :
    (createBasicRelationshipsV2 c5Graph (createBasicRelationshipsV2 c5Graph [])).length = 2 ∧
    (createBasicRelationshipsV2 c5Graph []).length = 1 := by
  refine ⟨by decide, by decide⟩

/-! ## The v1 injector (fhir_neo4j_injector.py)

    inject_patient reads the resource's own id (None when the key is
    absent) and skips the resource when the id is falsy (None or "");
    otherwise it MERGEs the patient node keyed by the id and overwrites its
    attributes.  A resource is modelled with its extracted attribute values
    (name, gender, birthDate standing for the full attribute set). -/

structure PatientResourceV1 where
  id : Option String
  name : String
  gender : String
  birthDate : String
  deriving DecidableEq

structure PatientNodeV1 where
  id : String
  name : String
  gender : String
  birthDate : String
  deriving DecidableEq

def mergePatientNodeV1 (store : List PatientNodeV1) (i : String)
    (r : PatientResourceV1) : List PatientNodeV1 :=
  if store.any (fun q => q.id == i)
  then store.map (fun q => if q.id == i then ⟨i, r.name, r.gender, r.birthDate⟩ else q)
  else store ++ [⟨i, r.name, r.gender, r.birthDate⟩]

def injectPatientV1 (store : List PatientNodeV1) (r : PatientResourceV1) :
    List PatientNodeV1 :=
  match r.id with
  | none => store
  | some i => if i = "" then store else mergePatientNodeV1 store i r

def injectPatientsV1 (store : List PatientNodeV1) (rs : List PatientResourceV1) :
    List PatientNodeV1 :=
  rs.foldl injectPatientV1 store

theorem mem_mergePatientNodeV1 {store : List PatientNodeV1} {i : String}
    {r : PatientResourceV1} {n : PatientNodeV1}
    (h : n ∈ mergePatientNodeV1 store i r) : n.id = i ∨ n ∈ store := by
  rw [mergePatientNodeV1] at h
  by_cases hc : store.any (fun q => q.id == i) = true
  · rw [if_pos hc] at h
    obtain ⟨q, hq, he⟩ := List.mem_map.mp h
    by_cases hqi : q.id = i
    · rw [if_pos (by simpa using hqi)] at he
      exact Or.inl (he ▸ rfl)
    · rw [if_neg (by simpa using hqi)] at he
      exact Or.inr (he ▸ hq)
  · rw [if_neg hc] at h
    rcases List.mem_append.mp h with h | h
    · exact Or.inr h
    · rcases List.mem_singleton.mp h with rfl
      exact Or.inl rfl

theorem injectPatientV1_keeps_ids {store : List PatientNodeV1}
    {r : PatientResourceV1} (h : ∀ n ∈ store, n.id ≠ "") :
    ∀ n ∈ injectPatientV1 store r, n.id ≠ "" := by
  intro n hn
  rw [injectPatientV1] at hn
  cases hr : r.id with
  | none => rw [hr] at hn; exact h n hn
  | some i =>
      rw [hr] at hn
      have hn2 : n ∈ (if i = "" then store else mergePatientNodeV1 store i r) := hn
      by_cases hi : i = ""
      · rw [if_pos hi] at hn2; exact h n hn2
      · rw [if_neg hi] at hn2
        rcases mem_mergePatientNodeV1 hn2 with he | hm
        · exact he ▸ hi
        · exact h n hm

/-- C8 (amended): in the v1 injector (inject_patient), a patient resource
    whose own identifier is absent or empty is skipped — the store is the
    one obtained from the remaining entries alone — and no processed store
    ever holds a node keyed by the empty identifier. -/
theorem c8_missing_id_skipped_v1 :
    (∀ (store : List PatientNodeV1) (r : PatientResourceV1)
        (rest : List PatientResourceV1),
      r.id = none ∨ r.id = some "" →
      injectPatientsV1 store (r :: rest) = injectPatientsV1 store rest) ∧
    (∀ (store : List PatientNodeV1) (rs : List PatientResourceV1),
      (∀ n ∈ store, n.id ≠ "") →
      ∀ n ∈ injectPatientsV1 store rs, n.id ≠ "") := by
  constructor
  · intro store r rest hr
    rw [injectPatientsV1, List.foldl_cons]
    have hskip : injectPatientV1 store r = store := by
      rcases hr with hr | hr
      · rw [injectPatientV1, hr]
      · rw [injectPatientV1, hr]
        rfl
    rw [hskip, injectPatientsV1]
  · intro store rs
    induction rs generalizing store with
    | nil => intro h n hn; exact h n hn
    | cons r rest ih =>
        intro h n hn
        rw [injectPatientsV1, List.foldl_cons] at hn
        exact ih _ (injectPatientV1_keeps_ids h) n hn

/-- Witness for C8 at concrete inputs: a resource with no id is skipped and
    the remaining resource produces the only node; no node is keyed "". -/
theorem c8_missing_id_skipped_v1_witness :
    injectPatientsV1 []
        [⟨none, "Ann", "female", "1990-01-01"⟩, ⟨some "P1", "Bob", "male", "1985-05-05"⟩] =
      injectPatientsV1 [] [⟨some "P1", "Bob", "male", "1985-05-05"⟩] ∧
    (∀ n ∈ injectPatientsV1 []
        [⟨none, "Ann", "female", "1990-01-01"⟩, ⟨some "P1", "Bob", "male", "1985-05-05"⟩],
      n.id ≠ "") :=
  ⟨c8_missing_id_skipped_v1.1 [] ⟨none, "Ann", "female", "1990-01-01"⟩
      [⟨some "P1", "Bob", "male", "1985-05-05"⟩] (Or.inl rfl),
   c8_missing_id_skipped_v1.2 []
      [⟨none, "Ann", "female", "1990-01-01"⟩, ⟨some "P1", "Bob", "male", "1985-05-05"⟩]
      (by simp)⟩

/-- C8 counterexample: the builder's create_patient_nodes has no identifier
    guard.  A patient entry whose id is the empty string is not skipped —
    the builder upserts a node keyed by the empty identifier. -/
theorem c8_empty_id_node_cex :
    patientIds (createPatientNodesB [] [mkPatientB ""]) = [""] := by
  decide

/-! ## Bundle processing (C9)

    v1 inject_fhir_bundle raises ValueError when the top-level
    resourceType is not "Bundle", before touching any entry;
    inject_from_directory catches per-file failures, logs and continues.
    The builder's process_fhir_bundle performs no such check: it processes
    whatever entry list the parsed object carries. -/

structure BundleV1 where
  resourceType : String
  entry : List PatientResourceV1

def injectFHIRBundleV1 (store : List PatientNodeV1) (b : BundleV1) :
    Except String (List PatientNodeV1) :=
  if b.resourceType = "Bundle"
  then Except.ok (injectPatientsV1 store b.entry)
  else Except.error "Input data is not a FHIR Bundle"

def injectFromDirectoryV1 (store : List PatientNodeV1) (files : List BundleV1) :
    List PatientNodeV1 :=
  files.foldl (fun s f =>
    match injectFHIRBundleV1 s f with
    | Except.ok s2 => s2
    | Except.error _ => s) store

/-- C9 (amended): in the v1 injector, a parsed input whose top-level
    type-discriminator is not "Bundle" is rejected with an error before any
    of its entries are processed (the store is untouched), and the
    directory-level batch absorbs the failure and continues with the
    remaining files exactly as if the bad file were not there. -/
theorem c9_bundle_marker_fail_fast_v1 (store : List PatientNodeV1)
    (b : BundleV1) (rest : List BundleV1) (h : b.resourceType ≠ "Bundle") :
    injectFHIRBundleV1 store b = Except.error "Input data is not a FHIR Bundle" ∧
    injectFromDirectoryV1 store (b :: rest) = injectFromDirectoryV1 store rest := by
  have herr : injectFHIRBundleV1 store b =
      Except.error "Input data is not a FHIR Bundle" := by
    rw [injectFHIRBundleV1, if_neg h]
  refine ⟨herr, ?_⟩
  rw [injectFromDirectoryV1, List.foldl_cons, herr, injectFromDirectoryV1]

/-- Witness for C9: a file whose marker is "Patient" is rejected and the
    remaining file of the batch is still processed. -/
theorem c9_bundle_marker_fail_fast_v1_witness :
    injectFHIRBundleV1 [] ⟨"Patient", [⟨some "P9", "", "", ""⟩]⟩ =
      Except.error "Input data is not a FHIR Bundle" ∧
    injectFromDirectoryV1 []
        [⟨"Patient", [⟨some "P9", "", "", ""⟩]⟩,
         ⟨"Bundle", [⟨some "P1", "Bob", "male", "1985-05-05"⟩]⟩] =
      injectFromDirectoryV1 [] [⟨"Bundle", [⟨some "P1", "Bob", "male", "1985-05-05"⟩]⟩] :=
  ⟨(c9_bundle_marker_fail_fast_v1 [] ⟨"Patient", [⟨some "P9", "", "", ""⟩]⟩
      [⟨"Bundle", [⟨some "P1", "Bob", "male", "1985-05-05"⟩]⟩] (by decide)).1,
   (c9_bundle_marker_fail_fast_v1 [] ⟨"Patient", [⟨some "P9", "", "", ""⟩]⟩
      [⟨"Bundle", [⟨some "P1", "Bob", "male", "1985-05-05"⟩]⟩] (by decide)).2⟩

/-- A parsed file as the builder sees it: process_fhir_bundle reads
    bundle.get("entry", []) directly, never looking at the top-level
    resourceType. -/
structure BundleFileB where
  resourceType : Option String
  entry : List PatientB

def processFHIRBundleB (store : List PatientB) (b : BundleFileB) : List PatientB :=
  createPatientNodesB store b.entry

/-- C9 counterexample: the builder performs no bundle-marker check.  A
    parsed object whose resourceType is "Patient" — not the bundle marker —
    is not rejected: its entries are processed and a node is created. -/
theorem c9_no_marker_check_cex :
    (⟨some "Patient", [mkPatientB "P1"]⟩ : BundleFileB).resourceType ≠ some "Bundle" ∧
    processFHIRBundleB [] ⟨some "Patient", [mkPatientB "P1"]⟩ = [mkPatientB "P1"] := by
  refine ⟨by decide, by decide⟩

/-! ## C10: v1 reference normalization

    The v1 injector normalizes subject/encounter references (Encounter,
    Condition, Observation mappers alike) with a single operation:
    reference.replace("urn:uuid:", "").  The linking query then MATCHes a
    patient node by exact id, and MERGEs the edge only for the rows the
    MATCH produced. -/

/-- The patient→resource link MERGE of the v1 mappers: with the normalized
    reference as the lookup key, an edge is produced for each patient node
    whose id equals it; a falsy (empty) key skips the linking query. -/
def v1PatientLinkEdges (patients : List (List Char)) (ref : List Char)
    (cid : List Char) : List (List Char × List Char) :=
  let pid := stripUrnUuid ref
  if pid = [] then []
  else (patients.filter (fun q => q == pid)).map (fun q => (q, cid))

/-- C10: the v1 injector's reference normalization only strips the literal
    "urn:uuid:" marker.  A type-qualified reference "Type/id" is left
    unchanged (it contains no colon, so no occurrence of the marker exists),
    and therefore the exact-id lookup matches no loaded patient whose id is
    a bare (slash-free) identifier: the link edge is silently not created.
    The model is a total function, so no error is raised. -/
theorem c10_type_qualified_ref_unlinked_v1 (t i cid : List Char)
    (patients : List (List Char)) (hct : ':' ∉ t) (hci : ':' ∉ i)
    (hp : ∀ q ∈ patients, '/' ∉ q) :
    stripUrnUuid (t ++ '/' :: i) = t ++ '/' :: i ∧
    v1PatientLinkEdges patients (t ++ '/' :: i) cid = [] := by
  have hcolon : ':' ∉ t ++ '/' :: i := by
    intro hm
    rcases List.mem_append.mp hm with hm | hm
    · exact hct hm
    · rcases List.mem_cons.mp hm with h | hm
      · exact absurd h (by decide)
      · exact hci hm
  have hstrip := stripUrnUuid_no_colon hcolon
  refine ⟨hstrip, ?_⟩
  rw [v1PatientLinkEdges]
  simp only [hstrip]
  have hne : ¬(t ++ '/' :: i = []) := by cases t <;> simp
  rw [if_neg hne]
  have hfil : patients.filter (fun q => q == (t ++ '/' :: i)) = [] := by
    refine List.filter_eq_nil_iff.mpr (fun q hq => ?_)
    have hq2 : q ≠ t ++ '/' :: i := by
      intro he
      have : '/' ∈ q := he ▸ List.mem_append.mpr (Or.inr (List.mem_cons_self _ _))
      exact hp q hq this
    simpa using hq2
  rw [hfil, List.map_nil]

/-- Witness for C10: the reference "Patient/P1" is left unchanged by the v1
    normalization and produces no link edge against the loaded patient node
    "P1". -/
theorem c10_type_qualified_ref_unlinked_v1_witness :
    stripUrnUuid ("Patient".data ++ '/' :: "P1".data) =
      "Patient".data ++ '/' :: "P1".data ∧
    v1PatientLinkEdges ["P1".data] ("Patient".data ++ '/' :: "P1".data)
      "C1".data = [] :=
  c10_type_qualified_ref_unlinked_v1 "Patient".data "P1".data "C1".data
    ["P1".data] (by decide) (by decide) (by decide)

/-! ## Field extraction (C7)

    Parsed JSON values: objects (string-keyed dicts), arrays, strings,
    numbers, booleans, null. -/

inductive JValue where
  | null
  | str (s : String)
  | num (n : Int)
  | boolean (b : Bool)
  | arr (xs : List JValue)
  | obj (fields : List (String × JValue))

/-- One subscription step: a field key or an array index. -/
inductive Subscript where
  | key (k : String)
  | idx (i : Nat)

def lookupField : List (String × JValue) → String → Option JValue
  | [], _ => none
  | (k, v) :: rest, s => if k == s then some v else lookupField rest s

/-- Python subscription current[x], with the exceptions the v2 safe_get
    catches (KeyError, IndexError, TypeError) collapsed to none: field
    lookup on a dict, index lookup on a list, index lookup on a string
    (yielding a one-character string), and TypeError on every other
    combination. -/
def pyGet : JValue → Subscript → Option JValue
  | JValue.obj fs, Subscript.key k => lookupField fs k
  | JValue.obj _, Subscript.idx _ => none
  | JValue.arr xs, Subscript.idx i => xs[i]?
  | JValue.arr _, Subscript.key _ => none
  | JValue.str s, Subscript.idx i => (s.data[i]?).map (fun c => JValue.str ⟨[c]⟩)
  | _, _ => none

/-- One item of the v2 safe_get dot-path: a plain key, or a key followed by
    an array index ("key[i]"), pre-parsed as the call sites write them. -/
inductive PathStep where
  | plain (k : String)
  | indexed (k : String) (i : Nat)

/-- The v2 safe_get loop body inside its try block: a plain item performs
    one subscription, an indexed item performs two; the first exception
    aborts the walk. -/
def tryPath (d : JValue) : List PathStep → Option JValue
  | [] => some d
  | PathStep.plain k :: rest =>
      match pyGet d (Subscript.key k) with
      | none => none
      | some v => tryPath v rest
  | PathStep.indexed k i :: rest =>
      match (pyGet d (Subscript.key k)).bind (fun v => pyGet v (Subscript.idx i)) with
      | none => none
      | some v => tryPath v rest

/-- FHIRNeo4jInjectorV2.safe_get: the caught exception and a final None
    value both give the caller-supplied default. -/
def safeGetV2 (d : JValue) (path : List PathStep) (dft : JValue) : JValue :=
  match tryPath d path with
  | none => dft
  | some JValue.null => dft
  | some v => v

/-- The dot-path flattened into its individual subscription steps. -/
def expandPath : List PathStep → List Subscript
  | [] => []
  | PathStep.plain k :: rest => Subscript.key k :: expandPath rest
  | PathStep.indexed k i :: rest => Subscript.key k :: Subscript.idx i :: expandPath rest

/-- Modelled from the spec: "return the value at that path" — a straight
    step-by-step traversal that is defined exactly when every step is
    present and well-shaped. -/
def valueAt : JValue → List Subscript → Option JValue
  | d, [] => some d
  | d, a :: rest =>
      match pyGet d a with
      | none => none
      | some v => valueAt v rest

theorem tryPath_eq_valueAt (d : JValue) (path : List PathStep) :
    tryPath d path = valueAt d (expandPath path) := by
  induction path generalizing d with
  | nil => rfl
  | cons s rest ih =>
      cases s with
      | plain k =>
          rw [tryPath, expandPath, valueAt]
          cases pyGet d (Subscript.key k) with
          | none => rfl
          | some v => exact ih v
      | indexed k i =>
          rw [tryPath, expandPath]
          simp only [valueAt]
          cases pyGet d (Subscript.key k) with
          | none => simp
          | some v =>
              simp only [Option.some_bind]
              cases pyGet v (Subscript.idx i) with
              | none => simp
              | some w => simp [ih w]

/-- C7 (amended): the v2 safe_get returns the value at the path whenever
    every step is present and the value is not null; it returns the
    caller-supplied default whenever some step is absent, wrong-shaped or
    index-out-of-range (the traversal yields nothing), and also when the
    value found is null.  It is a total function, so it never raises. -/
theorem c7_field_extraction_v2 (d : JValue) (path : List PathStep) (dft : JValue) :
    (∀ v, valueAt d (expandPath path) = some v → v ≠ JValue.null →
      safeGetV2 d path dft = v) ∧
    (valueAt d (expandPath path) = none → safeGetV2 d path dft = dft) ∧
    (valueAt d (expandPath path) = some JValue.null → safeGetV2 d path dft = dft) := by
  refine ⟨?_, ?_, ?_⟩
  · intro v hv hnull
    rw [safeGetV2, tryPath_eq_valueAt, hv]
    cases v with
    | null => exact absurd rfl hnull
    | str s => rfl
    | num n => rfl
    | boolean b => rfl
    | arr xs => rfl
    | obj fs => rfl
  · intro hv
    rw [safeGetV2, tryPath_eq_valueAt, hv]
  · intro hv
    rw [safeGetV2, tryPath_eq_valueAt, hv]

/-- Witness for C7 at concrete inputs: a present two-key path yields its
    value, an absent key yields the default. -/
theorem c7_field_extraction_v2_witness :
    safeGetV2 (JValue.obj [("period", JValue.obj [("start", JValue.str "2020")])])
      [PathStep.plain "period", PathStep.plain "start"] (JValue.str "") =
      JValue.str "2020" ∧
    safeGetV2 (JValue.obj [("period", JValue.obj [("start", JValue.str "2020")])])
      [PathStep.plain "missing"] (JValue.str "") = JValue.str "" :=
  ⟨(c7_field_extraction_v2 _ _ _).1 (JValue.str "2020") rfl
      (fun h => JValue.noConfusion h),
   (c7_field_extraction_v2 _ _ _).2.1 rfl⟩

/-- One key of the builder's _safe_get variadic path: a string key or an
    integer index. -/
inductive BKey where
  | str (s : String)
  | nat (n : Nat)

/-- FHIRGraphBuilder._safe_get: on a dict, data.get(key, {}); on a
    non-empty list, data[0] for any integer key and the list unchanged for
    a string key; otherwise the default; at the end, the default if what
    remains is the empty dict. -/
def safeGetB (data : JValue) (keys : List BKey) (dft : JValue) : JValue :=
  match keys with
  | [] =>
      match data with
      | JValue.obj [] => dft
      | v => v
  | k :: rest =>
      match data, k with
      | JValue.obj fs, BKey.str s =>
          safeGetB ((lookupField fs s).getD (JValue.obj [])) rest dft
      | JValue.obj _, BKey.nat _ => safeGetB (JValue.obj []) rest dft
      | JValue.arr (x :: _), BKey.nat _ => safeGetB x rest dft
      | JValue.arr (x :: xs), BKey.str _ => safeGetB (JValue.arr (x :: xs)) rest dft
      | _, _ => dft

/-- C7 counterexample: the builder's _safe_get does not return the value at
    the path.  For data {"name": ["a", "b"]} and path ("name", 1) — every
    step present, index in range — the value at the path is "b", but
    _safe_get returns "a" (any integer key selects element 0), which is
    neither the value at the path nor the caller-supplied default. -/
theorem c7_first_element_only_cex :
    safeGetB (JValue.obj [("name", JValue.arr [JValue.str "a", JValue.str "b"])])
      [BKey.str "name", BKey.nat 1] JValue.null = JValue.str "a" ∧
    valueAt (JValue.obj [("name", JValue.arr [JValue.str "a", JValue.str "b"])])
      [Subscript.key "name", Subscript.idx 1] = some (JValue.str "b") ∧
    JValue.str "a" ≠ JValue.str "b" ∧
    JValue.str "a" ≠ JValue.null := by
  refine ⟨rfl, rfl, ?_, ?_⟩
  · intro h
    injection h with h2
    exact absurd h2 (by decide)
  · intro h
    exact JValue.noConfusion h

end FhirGraph
